import Mathlib

/-
Verification of the aggregation logic of the cpu_cache repository.

The repository contains one substantive function, CountryCount, in two
package variants (the root package users and the slice directory package),
both of shape

  func CountryCount(users []User) map[string]int {
      counts := make(map[string]int) // country -> count
      for _, u := range users {
          if !u.Active {
              continue
          }
          counts[u.Country]++
      }
      return counts
  }

Embedding choices:
- a Go byte slice ([]byte) is Option (List Nat): none models the nil slice,
  some bs a slice holding bytes bs;
- a Go map[string]int is a CountMap: a null flag (a Go map value may be nil;
  make produces a non-nil map) together with an association list of entries
  with pairwise distinct keys in insertion order; map equality in the Go
  sense is lookup equality, which ignores entry order;
- the statement counts[k]++ reads the missing key as the zero value and
  stores the increment, so a fresh key enters the map with value 1 (mapInc);
- Go int is modelled as Int without wrap: every value stored by CountryCount
  is bounded by the length of the input slice, and a Go slice length is at
  most 2^63 - 1, so the increment can never overflow a 64-bit int.
-/

/-- An association-list entry store for a Go map[string]int. -/
abbrev Entries := List (String × Int)

/-- The Go statement counts[k]++ on an association list: if the key is
present its value is incremented in place, otherwise the key is appended
with value 0 + 1 = 1 (reading a missing key gives the zero value). -/
def mapInc : Entries → String → Entries
  | [], k => [(k, 1)]
  | (k1, v) :: rest, k =>
    if k1 = k then (k1, v + 1) :: rest else (k1, v) :: mapInc rest k

/-- A Go map[string]int value: null models the nil map, entries the
key-value pairs. The builtin make returns a map with null = false. -/
structure CountMap where
  null : Bool
  entries : Entries
  deriving DecidableEq

namespace users

/-- The type Image []byte of src/users.go: none is the nil byte slice. -/
abbrev Image := Option (List Nat)

/-- The User struct of src/users.go (field order Login, Icon, Active,
Country). -/
structure User where
  Login : String
  Icon : Image
  Active : Bool
  Country : String
  deriving DecidableEq

/-- CountryCount of src/users.go: returns map of country to number of
active users. -/
def CountryCount (usersArg : List User) : CountMap :=
  { null := false
    entries := usersArg.foldl
      (fun counts u => if !u.Active then counts else mapInc counts u.Country)
      [] }

end users

namespace slicePkg

/-- The type Image []byte of src/slice/users.go: none is the nil byte
slice. -/
abbrev Image := Option (List Nat)

/-- The User struct of src/slice/users.go (field order Login, Active,
Icon, Country). -/
structure User where
  Login : String
  Active : Bool
  Icon : Image
  Country : String
  deriving DecidableEq

/-- CountryCount of src/slice/users.go: returns map of country to number
of active users. Textually identical to the root-package function. -/
def CountryCount (usersArg : List User) : CountMap :=
  { null := false
    entries := usersArg.foldl
      (fun counts u => if !u.Active then counts else mapInc counts u.Country)
      [] }

end slicePkg

namespace arrayPkg

/-- Modelled from the spec: the inline-variant image buffer, the original
type Image [128 * 128]byte shown in the repository article (Listing 1) and
as a comment on line 3 of src/users.go, a fixed-size block of 16384 bytes
stored directly inside the record, with no src/ file of its own. -/
abbrev Image := Fin (128 * 128) → Nat

/-- Modelled from the spec: the inline-variant User struct of the article
(Listing 1), identical to the slice variants except for the inline image
buffer field. -/
structure User where
  Login : String
  Active : Bool
  Icon : Image
  Country : String

/-- Modelled from the spec: CountryCount over the inline-variant records;
the article keeps the function body unchanged between the two layouts. -/
def CountryCount (usersArg : List User) : CountMap :=
  { null := false
    entries := usersArg.foldl
      (fun counts u => if !u.Active then counts else mapInc counts u.Country)
      [] }

end arrayPkg

/-- The aggregation loop run over bare (active, country) pairs; every
record variant factors through this via projection. -/
def countryCountPairs (ps : List (Bool × String)) : CountMap :=
  { null := false
    entries := ps.foldl
      (fun counts p => if !p.1 then counts else mapInc counts p.2)
      [] }

/-- Number of pairs that are active with the given country. -/
def countTrue (ps : List (Bool × String)) (c : String) : Nat :=
  ps.countP (fun p => p.1 && p.2 == c)

/-- Number of records in the input that are active and carry country c. -/
def countActive (usersArg : List users.User) (c : String) : Nat :=
  usersArg.countP (fun u => u.Active && u.Country == c)

/-- Projection of a root-package record to the fields the aggregator
reads. -/
def users.proj (u : users.User) : Bool × String := (u.Active, u.Country)

/-- Projection of a slice-package record to the fields the aggregator
reads. -/
def slicePkg.proj (u : slicePkg.User) : Bool × String := (u.Active, u.Country)

/-- Projection of an inline-variant record to the fields the aggregator
reads. -/
def arrayPkg.proj (u : arrayPkg.User) : Bool × String := (u.Active, u.Country)

lemma usersCountryCount_eq_pairs (l : List users.User) :
    users.CountryCount l = countryCountPairs (l.map users.proj) := by
  simp [users.CountryCount, countryCountPairs, List.foldl_map, users.proj]

lemma slicePkgCountryCount_eq_pairs (l : List slicePkg.User) :
    slicePkg.CountryCount l = countryCountPairs (l.map slicePkg.proj) := by
  simp [slicePkg.CountryCount, countryCountPairs, List.foldl_map, slicePkg.proj]

lemma arrayPkgCountryCount_eq_pairs (l : List arrayPkg.User) :
    arrayPkg.CountryCount l = countryCountPairs (l.map arrayPkg.proj) := by
  simp [arrayPkg.CountryCount, countryCountPairs, List.foldl_map, arrayPkg.proj]

lemma mapInc_lookup_self (m : Entries) (k : String) :
    (mapInc m k).lookup k = some (((m.lookup k).getD 0) + 1) := by
  induction m with
  | nil => simp [mapInc, List.lookup]
  | cons hd tl ih =>
    obtain ⟨k1, v⟩ := hd
    by_cases h : k1 = k
    · subst h
      simp [mapInc, List.lookup]
    · have hb : (k == k1) = false := beq_eq_false_iff_ne.mpr (Ne.symm h)
      simp [mapInc, h, List.lookup, hb, ih]

lemma mapInc_lookup_ne (m : Entries) (k c : String) (h : c ≠ k) :
    (mapInc m k).lookup c = m.lookup c := by
  have hck : (c == k) = false := beq_eq_false_iff_ne.mpr h
  induction m with
  | nil => simp [mapInc, List.lookup, hck]
  | cons hd tl ih =>
    obtain ⟨k1, v⟩ := hd
    by_cases h1 : k1 = k
    · subst h1
      simp [mapInc, List.lookup, hck]
    · by_cases h2 : c = k1
      · subst h2
        simp [mapInc, h1, List.lookup]
      · have hb : (c == k1) = false := beq_eq_false_iff_ne.mpr h2
        simp [mapInc, h1, List.lookup, hb, ih]

lemma lookup_foldl_pairs (ps : List (Bool × String)) (acc : Entries) (c : String) :
    (ps.foldl (fun counts p => if !p.1 then counts else mapInc counts p.2) acc).lookup c =
      match acc.lookup c with
      | some v => some (v + (countTrue ps c : Int))
      | none =>
        if countTrue ps c = 0 then none else some ((countTrue ps c : Int)) := by
  induction ps generalizing acc with
  | nil => cases hacc : acc.lookup c <;> simp [countTrue, hacc]
  | cons p rest ih =>
    obtain ⟨b, s⟩ := p
    cases b with
    | false =>
      simpa [countTrue, List.countP_cons] using ih acc
    | true =>
      by_cases hs : s = c
      · subst hs
        have hcnt : countTrue ((true, s) :: rest) s = countTrue rest s + 1 := by
          simp [countTrue, List.countP_cons]
        rw [List.foldl_cons]
        simp only [Bool.not_true, Bool.false_eq_true, if_false, hcnt]
        rw [ih (mapInc acc s), mapInc_lookup_self]
        cases hacc : acc.lookup s <;> simp [hacc] <;> omega
      · have hcnt : countTrue ((true, s) :: rest) c = countTrue rest c := by
          have : (s == c) = false := beq_eq_false_iff_ne.mpr hs
          simp [countTrue, List.countP_cons, this]
        rw [List.foldl_cons]
        simp only [Bool.not_true, Bool.false_eq_true, if_false, hcnt]
        rw [ih (mapInc acc s), mapInc_lookup_ne acc s c (Ne.symm hs)]

/-- Lookup characterization of the pair-level aggregation: a country is
mapped to the number of active pairs carrying it, and is absent exactly
when that number is zero. -/
lemma lookup_countryCountPairs (ps : List (Bool × String)) (c : String) :
    (countryCountPairs ps).entries.lookup c =
      if countTrue ps c = 0 then none else some ((countTrue ps c : Int)) := by
  have h := lookup_foldl_pairs ps [] c
  simpa [countryCountPairs, List.lookup] using h

/-- Sum of the values stored in an entry list. -/
def sumValues (m : Entries) : Int := (m.map Prod.snd).sum

lemma sumValues_mapInc (m : Entries) (k : String) :
    sumValues (mapInc m k) = sumValues m + 1 := by
  induction m with
  | nil => simp [mapInc, sumValues]
  | cons hd tl ih =>
    obtain ⟨k1, v⟩ := hd
    by_cases h : k1 = k
    · simp [mapInc, h, sumValues]
      omega
    · simp [mapInc, h, sumValues] at ih ⊢
      omega

lemma sumValues_foldl_pairs (ps : List (Bool × String)) (acc : Entries) :
    sumValues (ps.foldl (fun counts p => if !p.1 then counts else mapInc counts p.2) acc) =
      sumValues acc + (ps.countP (fun p => p.1) : Int) := by
  induction ps generalizing acc with
  | nil => simp
  | cons p rest ih =>
    obtain ⟨b, s⟩ := p
    cases b with
    | false => simpa [List.countP_cons] using ih acc
    | true =>
      rw [List.foldl_cons]
      simp only [Bool.not_true, Bool.false_eq_true, if_false]
      rw [ih (mapInc acc s), sumValues_mapInc]
      simp [List.countP_cons]
      omega

lemma mapInc_forall_pos (m : Entries) (k : String)
    (h : ∀ kv ∈ m, 1 ≤ kv.2) : ∀ kv ∈ mapInc m k, 1 ≤ kv.2 := by
  induction m with
  | nil =>
    intro kv hkv
    simp [mapInc] at hkv
    simp [hkv]
  | cons hd tl ih =>
    obtain ⟨k1, v⟩ := hd
    by_cases hk : k1 = k
    · intro kv hkv
      simp [mapInc, hk] at hkv
      rcases hkv with hkv | hkv
      · have hv : 1 ≤ v := h (k, v) (by simp [hk])
        simp [hkv]
        omega
      · exact h kv (List.mem_cons_of_mem _ hkv)
    · intro kv hkv
      simp only [mapInc, hk, if_false, List.mem_cons] at hkv
      rcases hkv with hkv | hkv
      · exact h kv (by simp [hkv])
      · exact ih (fun kv h1 => h kv (List.mem_cons_of_mem _ h1)) kv hkv

lemma foldl_pairs_forall_pos (ps : List (Bool × String)) (acc : Entries)
    (h : ∀ kv ∈ acc, 1 ≤ kv.2) :
    ∀ kv ∈ ps.foldl (fun counts p => if !p.1 then counts else mapInc counts p.2) acc, 1 ≤ kv.2 := by
  induction ps generalizing acc with
  | nil => simpa using h
  | cons p rest ih =>
    obtain ⟨b, s⟩ := p
    cases b with
    | false => simpa using ih acc h
    | true =>
      rw [List.foldl_cons]
      simp only [Bool.not_true, Bool.false_eq_true, if_false]
      exact ih (mapInc acc s) (mapInc_forall_pos acc s h)

/-- The CountryCount loop with the traversed slice threaded through as
explicit state: each iteration reads one record from the slice and writes
only to counts, so the slice component of the state is returned
unchanged. -/
def countryCountLoop : List users.User → Entries → List users.User × Entries
  | [], counts => ([], counts)
  | u :: rest, counts =>
    let next := if !u.Active then counts else mapInc counts u.Country
    let res := countryCountLoop rest next
    (u :: res.1, res.2)

/-- CountryCount of src/users.go with the input slice made an explicit
state component alongside the counts map. -/
def CountryCountState (usersArg : List users.User) : List users.User × CountMap :=
  let res := countryCountLoop usersArg []
  (res.1, { null := false, entries := res.2 })

lemma countryCountLoop_eq (l : List users.User) (acc : Entries) :
    countryCountLoop l acc =
      (l, l.foldl (fun counts u => if !u.Active then counts else mapInc counts u.Country) acc) := by
  induction l generalizing acc with
  | nil => rfl
  | cons u rest ih => simp [countryCountLoop, ih]

/-- Range over a Go slice value that may be nil: ranging over the nil
slice performs no iterations, exactly as over an empty one. -/
def sliceElems {α : Type} : Option (List α) → List α
  | none => []
  | some l => l

/-- CountryCount of src/users.go lifted to a possibly-nil input slice
(none models a nil []User argument); the body is the same range loop. -/
def CountryCountOpt (usersArg : Option (List users.User)) : CountMap :=
  { null := false
    entries := (sliceElems usersArg).foldl
      (fun counts u => if !u.Active then counts else mapInc counts u.Country)
      [] }

lemma forall2_map_eq {α β : Type} {f : α → Bool × String} {g : β → Bool × String}
    {l1 : List α} {l2 : List β}
    (h : List.Forall₂ (fun a b => f a = g b) l1 l2) : l1.map f = l2.map g := by
  induction h with
  | nil => rfl
  | cons h1 _ ih => simp [h1, ih]

/-- The country pool of the benchmark init function in the article
(bench_test.go, Listing 2). -/
def benchCountries : List String := ["AD", "BB", "CA", "DK"]

/-- The 10000-record benchmark input: record i is active when i % 5 > 0
and carries country number i % 4; login and icon stay at their zero
values as in the init function of the article. -/
def benchUsers : List users.User :=
  (List.range 10000).map fun i =>
    { Login := "", Icon := none, Active := decide (0 < i % 5),
      Country := benchCountries.getD (i % 4) "" }

/-- The benchmark membership predicate on indices: active and carrying
country number j. -/
def benchPred (j : Nat) (i : Nat) : Bool :=
  decide (0 < i % 5) && decide (i % 4 = j)

lemma countP_range_periodic (p : Nat → Bool) (d k : Nat)
    (hp : ∀ a r, p (d * a + r) = p r) :
    (List.range (d * k)).countP p = k * (List.range d).countP p := by
  induction k with
  | zero => simp
  | succ k ih =>
    have hd : d * (k + 1) = d * k + d := by ring
    rw [hd, List.range_add, List.countP_append, ih, List.countP_map]
    have hcongr : (List.range d).countP (p ∘ (d * k + ·)) = (List.range d).countP p := by
      apply List.countP_congr
      intro r _
      simp only [Function.comp_apply]
      rw [hp k r]
    rw [hcongr]
    ring

lemma countTrue_bench (c : String) (j : Nat)
    (hc : ∀ r, r < 4 → ((benchCountries.getD r "" == c) = decide (r = j))) :
    countTrue (benchUsers.map users.proj) c = (List.range 10000).countP (benchPred j) := by
  unfold countTrue benchUsers
  rw [List.map_map, List.countP_map]
  apply List.countP_congr
  intro i _
  have h4 : i % 4 < 4 := Nat.mod_lt _ (by norm_num)
  simp only [Function.comp_apply, users.proj, benchPred, hc (i % 4) h4]

lemma benchPred_periodic (j a r : Nat) : benchPred j (20 * a + r) = benchPred j r := by
  have h5 : (20 * a + r) % 5 = r % 5 := by omega
  have h4 : (20 * a + r) % 4 = r % 4 := by omega
  simp only [benchPred, h5, h4]

lemma countP_range_bench (j : Nat) (hcnt : (List.range 20).countP (benchPred j) = 4) :
    (List.range 10000).countP (benchPred j) = 2000 := by
  have h : (10000 : Nat) = 20 * 500 := by norm_num
  rw [h, countP_range_periodic (benchPred j) 20 500 (fun a r => benchPred_periodic j a r), hcnt]

lemma bench_lookup (c : String) (j : Nat)
    (hc : ∀ r, r < 4 → ((benchCountries.getD r "" == c) = decide (r = j)))
    (hcnt : (List.range 20).countP (benchPred j) = 4) :
    (users.CountryCount benchUsers).entries.lookup c = some 2000 := by
  rw [usersCountryCount_eq_pairs, lookup_countryCountPairs,
    countTrue_bench c j hc, countP_range_bench j hcnt]
  norm_num


/-- C1: for every input sequence of Users and every country string c, the
map returned by CountryCount sends c to the number of input records that
are active with country c whenever that number is positive, and has no
entry for c when that number is zero; in particular a country occurring
only on inactive records is absent, never present with count 0. -/
theorem countryCount_lookup_eq_countActive (usersArg : List users.User) (c : String) :
    (users.CountryCount usersArg).entries.lookup c =
      if countActive usersArg c = 0 then none
      else some ((countActive usersArg c : Int)) := by
  rw [usersCountryCount_eq_pairs, lookup_countryCountPairs]
  have h : countTrue (usersArg.map users.proj) c = countActive usersArg c := by
    rw [countTrue, List.countP_map]
    rfl
  rw [h]

/-- C2: for every input sequence, the values of the map returned by
CountryCount sum to the total number of active records in the input. -/
theorem countryCount_sum_values (usersArg : List users.User) :
    sumValues (users.CountryCount usersArg).entries =
      (usersArg.countP (fun u => u.Active) : Int) := by
  rw [usersCountryCount_eq_pairs]
  have h1 : (usersArg.map users.proj).countP (fun p => p.1) =
      usersArg.countP (fun u => u.Active) := by
    rw [List.countP_map]
    rfl
  have h2 := sumValues_foldl_pairs (usersArg.map users.proj) []
  rw [show sumValues ([] : Entries) = 0 from rfl, zero_add, h1] at h2
  exact h2

/-- C3: the aggregation is independent of the image-buffer representation
and content: two inputs that agree pairwise on the active flag and the
country, one over the root-package records and one over the slice-package
or the inline-array-variant records, produce identical maps. -/
theorem countryCount_representation_equivalence
    (lu : List users.User) (ls : List slicePkg.User) (la : List arrayPkg.User)
    (hus : List.Forall₂ (fun a b => a.Active = b.Active ∧ a.Country = b.Country) lu ls)
    (hua : List.Forall₂ (fun a b => a.Active = b.Active ∧ a.Country = b.Country) lu la) :
    users.CountryCount lu = slicePkg.CountryCount ls ∧
      users.CountryCount lu = arrayPkg.CountryCount la := by
  constructor
  · rw [usersCountryCount_eq_pairs, slicePkgCountryCount_eq_pairs]
    exact congrArg countryCountPairs
      (forall2_map_eq (hus.imp (fun a b h => by
        simp [users.proj, slicePkg.proj, h.1, h.2])))
  · rw [usersCountryCount_eq_pairs, arrayPkgCountryCount_eq_pairs]
    exact congrArg countryCountPairs
      (forall2_map_eq (hua.imp (fun a b h => by
        simp [users.proj, arrayPkg.proj, h.1, h.2])))

/-- Witness for C3 at concrete one-record inputs that differ in login and
in image-buffer representation (populated slice, nil slice, inline
array) but agree on the active flag and the country. -/
theorem countryCount_representation_equivalence_witness :
    List.Forall₂
      (fun (a : users.User) (b : slicePkg.User) => a.Active = b.Active ∧ a.Country = b.Country)
      [{ Login := "bob", Icon := some [7, 7], Active := true, Country := "AD" }]
      [{ Login := "alice", Active := true, Icon := none, Country := "AD" }] ∧
    List.Forall₂
      (fun (a : users.User) (b : arrayPkg.User) => a.Active = b.Active ∧ a.Country = b.Country)
      [{ Login := "bob", Icon := some [7, 7], Active := true, Country := "AD" }]
      [{ Login := "eve", Active := true, Icon := fun _ => 9, Country := "AD" }] ∧
    users.CountryCount [{ Login := "bob", Icon := some [7, 7], Active := true, Country := "AD" }] =
      slicePkg.CountryCount [{ Login := "alice", Active := true, Icon := none, Country := "AD" }] ∧
    users.CountryCount [{ Login := "bob", Icon := some [7, 7], Active := true, Country := "AD" }] =
      arrayPkg.CountryCount [{ Login := "eve", Active := true, Icon := fun _ => 9, Country := "AD" }] := by
  refine ⟨List.Forall₂.cons ⟨rfl, rfl⟩ List.Forall₂.nil,
    List.Forall₂.cons ⟨rfl, rfl⟩ List.Forall₂.nil, ?_⟩
  exact countryCount_representation_equivalence _ _ _
    (List.Forall₂.cons ⟨rfl, rfl⟩ List.Forall₂.nil)
    (List.Forall₂.cons ⟨rfl, rfl⟩ List.Forall₂.nil)

/-- C4: CountryCount is order-independent: on any permutation of the
input it returns an identical mapping, with the same nil flag and the
same lookup result for every country; the counts depend only on the
multiset of (active, country) pairs. -/
theorem countryCount_perm_invariant (l1 l2 : List users.User) (hp : l1.Perm l2) :
    (users.CountryCount l1).null = (users.CountryCount l2).null ∧
    ∀ c, (users.CountryCount l1).entries.lookup c =
      (users.CountryCount l2).entries.lookup c := by
  refine ⟨rfl, fun c => ?_⟩
  rw [usersCountryCount_eq_pairs, usersCountryCount_eq_pairs,
    lookup_countryCountPairs, lookup_countryCountPairs]
  have h : countTrue (l1.map users.proj) c = countTrue (l2.map users.proj) c := by
    rw [countTrue, countTrue, List.countP_map, List.countP_map]
    exact hp.countP_eq _
  rw [h]

/-- Witness for C4 at a concrete two-record input and its swap. -/
theorem countryCount_perm_invariant_witness :
    ([{ Login := "a", Icon := none, Active := true, Country := "AD" },
      { Login := "b", Icon := none, Active := true, Country := "BB" }] :
        List users.User).Perm
      [{ Login := "b", Icon := none, Active := true, Country := "BB" },
       { Login := "a", Icon := none, Active := true, Country := "AD" }] ∧
    (users.CountryCount
        [{ Login := "a", Icon := none, Active := true, Country := "AD" },
         { Login := "b", Icon := none, Active := true, Country := "BB" }]).entries.lookup "AD" =
      (users.CountryCount
        [{ Login := "b", Icon := none, Active := true, Country := "BB" },
         { Login := "a", Icon := none, Active := true, Country := "AD" }]).entries.lookup "AD" := by
  refine ⟨List.Perm.swap _ _ _, ?_⟩
  exact (countryCount_perm_invariant _ _ (List.Perm.swap _ _ _)).2 "AD"

/-- C5: on the empty input CountryCount returns the empty map produced by
make: a present, non-nil container with no entries, and no error. -/
theorem countryCount_empty_input :
    users.CountryCount [] = { null := false, entries := [] } := rfl

/-- C6: on the 10000-record benchmark input, in which record i carries
country number i mod 4 from AD, BB, CA, DK and is active when i mod 5 is
positive, CountryCount maps each of the four countries to exactly 2000. -/
theorem countryCount_bench_scenario :
    ((users.CountryCount benchUsers).entries.lookup "AD" = some 2000) ∧
    ((users.CountryCount benchUsers).entries.lookup "BB" = some 2000) ∧
    ((users.CountryCount benchUsers).entries.lookup "CA" = some 2000) ∧
    ((users.CountryCount benchUsers).entries.lookup "DK" = some 2000) :=
  ⟨bench_lookup "AD" 0 (by decide) (by decide),
   bench_lookup "BB" 1 (by decide) (by decide),
   bench_lookup "CA" 2 (by decide) (by decide),
   bench_lookup "DK" 3 (by decide) (by decide)⟩

/-- C7: CountryCount reads only the active flag and the country: two
inputs that agree pairwise on those two fields while differing
arbitrarily in login and icon produce equal maps. -/
theorem countryCount_noninterference (l1 l2 : List users.User)
    (h : List.Forall₂ (fun a b => a.Active = b.Active ∧ a.Country = b.Country) l1 l2) :
    users.CountryCount l1 = users.CountryCount l2 := by
  rw [usersCountryCount_eq_pairs, usersCountryCount_eq_pairs]
  exact congrArg countryCountPairs
    (forall2_map_eq (h.imp (fun a b h1 => by simp [users.proj, h1.1, h1.2])))

/-- Witness for C7 at concrete one-record inputs differing in login and
icon only. -/
theorem countryCount_noninterference_witness :
    List.Forall₂
      (fun (a : users.User) (b : users.User) => a.Active = b.Active ∧ a.Country = b.Country)
      [{ Login := "bob", Icon := some [1, 2, 3], Active := true, Country := "CA" }]
      [{ Login := "alice", Icon := none, Active := true, Country := "CA" }] ∧
    users.CountryCount [{ Login := "bob", Icon := some [1, 2, 3], Active := true, Country := "CA" }] =
      users.CountryCount [{ Login := "alice", Icon := none, Active := true, Country := "CA" }] :=
  ⟨List.Forall₂.cons ⟨rfl, rfl⟩ List.Forall₂.nil,
   countryCount_noninterference _ _ (List.Forall₂.cons ⟨rfl, rfl⟩ List.Forall₂.nil)⟩

/-- C8: CountryCount has no side effects on its input: running the loop
with the traversed slice threaded as explicit state returns the input
slice unchanged, every record included, alongside the same map the pure
function computes; no state outside the fresh map is written. -/
theorem countryCount_no_mutation (usersArg : List users.User) :
    (CountryCountState usersArg).1 = usersArg ∧
    (CountryCountState usersArg).2 = users.CountryCount usersArg := by
  unfold CountryCountState
  rw [countryCountLoop_eq]
  exact ⟨rfl, rfl⟩

/-- C9: every value stored in the map returned by CountryCount is at
least 1: an entry is only created by incrementing on an active record, so
no country is ever present with count 0 or a negative count. -/
theorem countryCount_values_positive (usersArg : List users.User) (k : String) (v : Int)
    (hkv : (k, v) ∈ (users.CountryCount usersArg).entries) : 1 ≤ v := by
  rw [usersCountryCount_eq_pairs] at hkv
  exact foldl_pairs_forall_pos (usersArg.map users.proj) [] (by simp) (k, v) hkv

/-- Witness for C9 at a concrete one-record input whose map holds the
entry (AD, 1). -/
theorem countryCount_values_positive_witness :
    ((("AD" : String), (1 : Int)) ∈
      (users.CountryCount [{ Login := "", Icon := none, Active := true, Country := "AD" }]).entries) ∧
    (1 : Int) ≤ 1 :=
  ⟨by decide,
   countryCount_values_positive
     [{ Login := "", Icon := none, Active := true, Country := "AD" }] "AD" 1 (by decide)⟩

/-- C10: CountryCount is total and cannot fail: a nil input slice ranges
as the empty one and still yields the non-nil empty map, and the login
and icon fields are never read, so records whose icon is the nil slice or
a slice of any length are accepted; erasing every icon leaves the result
unchanged. -/
theorem countryCount_total_nil_safe :
    (CountryCountOpt none = { null := false, entries := [] }) ∧
    (∀ l, CountryCountOpt (some l) = users.CountryCount l) ∧
    (∀ l : List users.User,
      users.CountryCount (l.map fun u => { u with Icon := none }) = users.CountryCount l) := by
  refine ⟨rfl, fun l => rfl, fun l => ?_⟩
  rw [usersCountryCount_eq_pairs, usersCountryCount_eq_pairs, List.map_map]
  rfl
